import Mathlib

/-!
Verification development for the NoisyNeuron audio source separation core.

The definitions below are a shallow embedding of the Python sources:
src/markov_models/markov_chain.py (class AudioMarkovChain) and
src/audio_processor/audio_service.py (class EnhancedAudioProcessor).

Numpy float arrays are modelled as rational-valued functions or lists;
Python exceptions are modelled with Except; the sklearn scaler and k-means
objects (whose numeric behaviour is external to this repository) are
abstracted into an explicit environment of fit/predict functions that is
universally quantified in the theorems.
-/

namespace NoisyNeuron

/-! ## History encoding (markov_chain.py, _history_to_index / _index_to_history) -/

/-- Mirrors AudioMarkovChain._history_to_index: the loop computes
index = sum over i of state_i * n_states ^ (order - 1 - i); written here as
structural recursion on the history list, the head contributing the most
significant digit (for the head, order - 1 - 0 equals the tail length). -/
def history_to_index (n : ℕ) : List ℕ → ℕ
  | [] => 0
  | s :: rest => s * n ^ rest.length + history_to_index n rest

/-- Mirrors the loop body of AudioMarkovChain._index_to_history before the
final reversal: k iterations of emitting index mod n and flooring index by n. -/
def index_to_history_rev (n : ℕ) : ℕ → ℕ → List ℕ
  | 0, _ => []
  | k + 1, index => index % n :: index_to_history_rev n k (index / n)

/-- Mirrors AudioMarkovChain._index_to_history: digits are produced
least-significant first and the list is reversed at the end. -/
def index_to_history (n k index : ℕ) : List ℕ :=
  (index_to_history_rev n k index).reverse

/-- Value of a digit list read least-significant-digit first (proof helper). -/
def lsbVal (n : ℕ) : List ℕ → ℕ
  | [] => 0
  | x :: xs => x + n * lsbVal n xs

/-! ## Model state (markov_chain.py, class AudioMarkovChain) -/

/-- State of an AudioMarkovChain instance.  The numpy arrays
transition_matrix (shape n_states ^ order by n_states) and state_counts
(length n_states ^ order) are modelled as total rational-valued functions;
the sklearn StandardScaler and KMeans objects are modelled by their fitted
parameters, none before fitting. -/
structure AudioMarkovChain where
  order : ℕ
  n_states : ℕ
  feature_type : String
  transition_matrix : ℕ → ℕ → ℚ
  state_counts : ℕ → ℚ
  scaler_mean : Option (List ℚ)
  scaler_scale : Option (List ℚ)
  kmeans_centers : Option (List (List ℚ))
  is_trained : Bool
  training_samples : ℕ

/-- Mirrors AudioMarkovChain.__init__: zero transition matrix and counts,
unfitted scaler and k-means, untrained. -/
def AudioMarkovChain.init (order n_states : ℕ) (feature_type : String) :
    AudioMarkovChain :=
  { order := order
    n_states := n_states
    feature_type := feature_type
    transition_matrix := fun _ _ => 0
    state_counts := fun _ => 0
    scaler_mean := none
    scaler_scale := none
    kmeans_centers := none
    is_trained := false
    training_samples := 0 }

/-! ## Transition counting (markov_chain.py, _build_transition_matrix, train) -/

/-- The history slice seq[i - order : i] for i = j + k, as in the loop of
_build_transition_matrix. -/
def histSlice (seq : List ℕ) (j k : ℕ) : List ℕ := (seq.drop j).take k

/-- The (history, current state) pairs enumerated by the loop
for i in range(order, n_frames) of _build_transition_matrix, indexed by
j = i - order. -/
def transPairs (k : ℕ) (seq : List ℕ) : List (List ℕ × ℕ) :=
  (List.range (seq.length - k)).map fun j => (histSlice seq j k, seq.getD (j + k) 0)

/-- One iteration of the loop in _build_transition_matrix: increment
transition_matrix[history_idx, current_state] and state_counts[history_idx]. -/
def bump (m : AudioMarkovChain) (p : List ℕ × ℕ) : AudioMarkovChain :=
  let hi := history_to_index m.n_states p.1
  { m with
    transition_matrix := fun h s =>
      if h = hi ∧ s = p.2 then m.transition_matrix h s + 1
      else m.transition_matrix h s
    state_counts := fun h =>
      if h = hi then m.state_counts h + 1 else m.state_counts h }

/-- Mirrors AudioMarkovChain._build_transition_matrix: fold the increment
over the (history, current state) pairs of the sequence. -/
def build_transition_matrix (m : AudioMarkovChain) (seq : List ℕ) :
    AudioMarkovChain :=
  (transPairs m.order seq).foldl bump m

/-- Mirrors the normalization loop at the end of train: every row with a
positive state count is divided entrywise by that count; other rows are
left as they are (numpy iterates h below n_states ^ order only, but rows
outside that range do not exist in the array, so applying the update at
every h is the same map). -/
def normalize_rows (m : AudioMarkovChain) : AudioMarkovChain :=
  { m with
    transition_matrix := fun h s =>
      if m.state_counts h > 0 then m.transition_matrix h s / m.state_counts h
      else m.transition_matrix h s }

/-- Fitted parameters of the StandardScaler and KMeans pair. -/
structure FittedQuantizer where
  scaler_mean : List ℚ
  scaler_scale : List ℚ
  kmeans_centers : List (List ℚ)

/-- Environment abstracting the sklearn calls of _quantize_features: fit
returns the fitted parameters together with the state sequence that
fit_transform plus fit_predict yield on the given feature matrix;
predictStates is the post-fit transform plus predict path on the stored
parameters. -/
structure QuantEnv where
  fit : List (List ℚ) → FittedQuantizer × List ℕ
  predictStates : Option (List ℚ) → Option (List ℚ) → Option (List (List ℚ)) →
    List (List ℚ) → List ℕ

/-- Mirrors AudioMarkovChain._quantize_features: before training the scaler
and k-means are fitted on the query features (mutating the model state),
after training the stored parameters are used read-only. -/
def quantize_features (env : QuantEnv) (m : AudioMarkovChain)
    (features : List (List ℚ)) : List ℕ × AudioMarkovChain :=
  if m.is_trained then
    (env.predictStates m.scaler_mean m.scaler_scale m.kmeans_centers features, m)
  else
    let fitted := env.fit features
    (fitted.2,
      { m with
        scaler_mean := some fitted.1.scaler_mean
        scaler_scale := some fitted.1.scaler_scale
        kmeans_centers := some fitted.1.kmeans_centers })

/-- The quantization prefix of train: each training feature matrix is
quantized in turn, threading the model state (is_trained is still false
throughout, so every call refits the scaler and k-means). -/
def quantize_all (env : QuantEnv) (m : AudioMarkovChain) :
    List (List (List ℚ)) → List (List ℕ) × AudioMarkovChain
  | [] => ([], m)
  | f :: fs =>
      let first := quantize_features env m f
      let rest := quantize_all env first.2 fs
      (first.1 :: rest.1, rest.2)

/-- The transition-table half of train, starting from already quantized
state sequences: accumulate counts over every sequence, normalize rows,
set the trained flag and the sample count. -/
def train_states (m : AudioMarkovChain) (seqs : List (List ℕ)) :
    AudioMarkovChain :=
  { normalize_rows (seqs.foldl build_transition_matrix m) with
    is_trained := true
    training_samples := seqs.length }

/-- Mirrors AudioMarkovChain.train (librosa feature extraction is
abstracted into the given per-file feature matrices): quantize every file,
build the transition matrix from every state sequence, normalize rows, set
is_trained and training_samples. -/
def train (env : QuantEnv) (m : AudioMarkovChain)
    (features_list : List (List (List ℚ))) : AudioMarkovChain :=
  let qa := quantize_all env m features_list
  train_states qa.2 qa.1

/-- Raw count of transitions (history index h, next state s) over a corpus
of state sequences, the quantity _build_transition_matrix accumulates in
transition_matrix[h, s]. -/
def transCount (n k : ℕ) (seqs : List (List ℕ)) (h s : ℕ) : ℕ :=
  (((seqs.map (transPairs k)).flatten)).countP
    (fun p => history_to_index n p.1 == h && p.2 == s)

/-- Total number of observed transitions out of history index h over a
corpus, the quantity accumulated in state_counts[h]. -/
def histCount (n k : ℕ) (seqs : List (List ℕ)) (h : ℕ) : ℕ :=
  (((seqs.map (transPairs k)).flatten)).countP (fun p => history_to_index n p.1 == h)

/-- Concrete quantization environment for witnesses: fitting returns empty
parameters and maps every frame to state 0; prediction does the same. -/
def envZero : QuantEnv :=
  { fit := fun f =>
      ({ scaler_mean := [], scaler_scale := [], kmeans_centers := [] },
        f.map fun _ => 0)
    predictStates := fun _ _ _ f => f.map fun _ => 0 }

/-! ## Prediction (markov_chain.py, predict_probability) -/

/-- Python exception values raised by the embedded methods. -/
inductive PyError where
  | valueError (msg : String)
deriving DecidableEq

/-- The Laplace smoothing constant 1e-10 of predict_probability. -/
def smoothing : ℚ := 1 / 10 ^ 10

/-- The smoothed transition quotient for position i = j + order of the
state sequence, as computed inside the loop of predict_probability:
(transition_matrix[history_idx, current_state] + smoothing) divided by
(state_counts[history_idx] + smoothing * n_states).  The numerator is the
stored matrix entry, which after training holds the normalized row. -/
def predict_term (m : AudioMarkovChain) (states : List ℕ) (j : ℕ) : ℚ :=
  (m.transition_matrix (history_to_index m.n_states (histSlice states j m.order))
      (states.getD (j + m.order) 0) + smoothing) /
    (m.state_counts (history_to_index m.n_states (histSlice states j m.order)) +
      smoothing * m.n_states)

/-- The loop of predict_probability on an already quantized state
sequence: the sum of the logarithms of the smoothed transition quotients
over positions order to len - 1 (empty, hence 0.0, when the sequence has
at most order frames). -/
noncomputable def score_states (m : AudioMarkovChain) (states : List ℕ) : ℝ :=
  ((List.range (states.length - m.order)).map
    (fun j => Real.log (predict_term m states j))).sum

/-- Modelled from the spec sentence for score(): the per-transition
quotient with the RAW transition count in the numerator,
(count + ε) / (rowTotal + ε · n), stated over the training corpus the
counts came from. -/
def spec_predict_term (n k : ℕ) (seqs : List (List ℕ)) (states : List ℕ)
    (j : ℕ) : ℚ :=
  ((transCount n k seqs (history_to_index n (histSlice states j k))
      (states.getD (j + k) 0) : ℚ) + smoothing) /
    ((histCount n k seqs (history_to_index n (histSlice states j k)) : ℚ) +
      smoothing * n)

/-- Modelled from the spec sentence for score(): sum of
log((count + ε)/(rowTotal + ε · n)) over the observed transitions. -/
noncomputable def spec_score_states (n k : ℕ) (seqs : List (List ℕ))
    (states : List ℕ) : ℝ :=
  ((List.range (states.length - k)).map
    (fun j => Real.log (spec_predict_term n k seqs states j))).sum

/-- Environment abstracting the librosa calls of the query methods:
stft_magnitude maps an audio buffer to the magnitude spectrogram matrix
(rows are frequency bins, columns are time frames) and extract_features
maps an audio buffer and sample rate to a feature matrix. -/
structure AudioEnv where
  quant : QuantEnv
  stft_magnitude : List ℚ → List (List ℚ)
  extract_features : List ℚ → ℕ → List (List ℚ)

/-- Mirrors AudioMarkovChain.predict_probability: raises ValueError on an
untrained model, otherwise extracts features, quantizes them with the
stored scaler and k-means, and sums the smoothed log transition
probabilities.  The second component is the resulting object state. -/
noncomputable def predict_probability (aenv : AudioEnv) (m : AudioMarkovChain)
    (audio : List ℚ) (sr : ℕ) : Except PyError ℝ × AudioMarkovChain :=
  if m.is_trained then
    let q := quantize_features aenv.quant m (aenv.extract_features audio sr)
    (Except.ok (score_states q.2 q.1), q.2)
  else
    (Except.error (PyError.valueError "Model must be trained before prediction"), m)

/-- The model trained on the single quantized sequence [0, 1, 0, 2] with
order 1 and 3 states (used to exhibit the raw-count versus normalized-row
discrepancy in predict_probability). -/
def mC3 : AudioMarkovChain :=
  train_states (AudioMarkovChain.init 1 3 "mfcc") [[0, 1, 0, 2]]

/-! ## Mask generation (markov_chain.py, generate_mask) -/

/-- np.mean of a rational list (the mean of the empty list, a NaN in
numpy, is modelled as 0; the shape claims are insensitive to the value). -/
def listMean (l : List ℚ) : ℚ := l.sum / l.length

/-- np.mean of row h of the transition matrix: the average over the
n_states possible next states, as computed for each frame history inside
generate_mask. -/
def rowMeanProb (m : AudioMarkovChain) (h : ℕ) : ℚ :=
  ((List.range m.n_states).map (m.transition_matrix h)).sum / m.n_states

/-- The length-5 zero-padded window centred at index i, as read by
scipy.signal.medfilt with kernel_size 5. -/
def window5 (l : List ℚ) (i : ℕ) : List ℚ :=
  (List.range 5).map fun t => if i + t < 2 then 0 else l.getD (i + t - 2) 0

/-- scipy.signal.medfilt with kernel_size 5: every output sample is the
median (third smallest of five) of the zero-padded window at its index. -/
def medfilt5 (l : List ℚ) : List ℚ :=
  (List.range l.length).map fun i =>
    (List.insertionSort (fun a b => a ≤ b) (window5 l i)).getD 2 0

/-- The frame-wise mean outgoing probabilities of generate_mask, one for
every position i in range(order, len(states)). -/
def frame_probs_of (m : AudioMarkovChain) (states : List ℕ) : List ℚ :=
  (List.range (states.length - m.order)).map fun j =>
    rowMeanProb m (history_to_index m.n_states (histSlice states j m.order))

/-- The frame-count correction of generate_mask: pad with the mean
probability when there are fewer probabilities than spectrogram frames,
truncate when there are more, otherwise leave unchanged. -/
def pad_or_truncate (l : List ℚ) (T : ℕ) : List ℚ :=
  if l.length < T then l ++ List.replicate (T - l.length) (listMean l)
  else if l.length > T then l.take T
  else l

/-- Mirrors AudioMarkovChain.generate_mask: raises ValueError on an
untrained model; otherwise computes the magnitude spectrogram, quantizes
the extracted features, computes frame probabilities, corrects the frame
count, thresholds to a binary mask, median-filters it, and tiles the row
across the spectrogram frequency bins. -/
def generate_mask (aenv : AudioEnv) (m : AudioMarkovChain) (audio : List ℚ)
    (sr : ℕ) (threshold : ℚ) :
    Except PyError (List (List ℚ)) × AudioMarkovChain :=
  if m.is_trained then
    let magnitude := aenv.stft_magnitude audio
    let q := quantize_features aenv.quant m (aenv.extract_features audio sr)
    let frame_probs := frame_probs_of m q.1
    let padded := pad_or_truncate frame_probs (magnitude.getD 0 []).length
    let mask_row := medfilt5 (padded.map fun p => if p > threshold then (1 : ℚ) else 0)
    (Except.ok (List.replicate magnitude.length mask_row), q.2)
  else
    (Except.error (PyError.valueError "Model must be trained before mask generation"), m)

/-- Concrete audio environment for witnesses: a 3 by 4 magnitude
spectrogram and a three-frame feature matrix. -/
def aenvW : AudioEnv :=
  { quant := envZero
    stft_magnitude := fun _ => List.replicate 3 (List.replicate 4 0)
    extract_features := fun _ _ => [[0], [0], [0]] }

/-- Concrete trained model for witnesses (order 1, two states, trained on
the quantized sequence [0, 0, 0]). -/
def mW : AudioMarkovChain :=
  train_states (AudioMarkovChain.init 1 2 "mfcc") [[0, 0, 0]]

/-! ## Persistence (markov_chain.py, save_model / load_model) -/

/-- The JSON record written by save_model. -/
structure ModelData where
  order : ℕ
  n_states : ℕ
  feature_type : String
  transition_matrix : List (List ℚ)
  state_counts : List ℚ
  is_trained : Bool
  training_samples : ℕ
  scaler_mean : Option (List ℚ)
  scaler_scale : Option (List ℚ)
  kmeans_centers : Option (List (List ℚ))

/-- Mirrors AudioMarkovChain.save_model: tolist() serializes the numpy
arrays over their actual extents (n_states ^ order rows of n_states
columns); the scaler and k-means parameters are written when present. -/
def save_model (m : AudioMarkovChain) : ModelData :=
  { order := m.order
    n_states := m.n_states
    feature_type := m.feature_type
    transition_matrix := (List.range (m.n_states ^ m.order)).map fun h =>
      (List.range m.n_states).map fun s => m.transition_matrix h s
    state_counts := (List.range (m.n_states ^ m.order)).map fun h =>
      m.state_counts h
    is_trained := m.is_trained
    training_samples := m.training_samples
    scaler_mean := m.scaler_mean
    scaler_scale := m.scaler_scale
    kmeans_centers := m.kmeans_centers }

/-- Python truthiness of an optional list (None and the empty list are
falsy), as tested by load_model before restoring scaler and k-means. -/
def truthyList {α : Type} : Option (List α) → Bool
  | none => false
  | some l => !l.isEmpty

/-- Mirrors AudioMarkovChain.load_model applied to an existing instance:
all persisted scalars and arrays are restored (np.array of the nested
lists is modelled as the function reading the lists, 0 outside their
extent); the scaler is restored only when both of its arrays are truthy,
the k-means centers only when truthy. -/
def load_model (m : AudioMarkovChain) (d : ModelData) : AudioMarkovChain :=
  { m with
    order := d.order
    n_states := d.n_states
    feature_type := d.feature_type
    transition_matrix := fun h s => (d.transition_matrix.getD h []).getD s 0
    state_counts := fun h => d.state_counts.getD h 0
    is_trained := d.is_trained
    training_samples := d.training_samples
    scaler_mean :=
      if truthyList d.scaler_mean && truthyList d.scaler_scale then d.scaler_mean
      else m.scaler_mean
    scaler_scale :=
      if truthyList d.scaler_mean && truthyList d.scaler_scale then d.scaler_scale
      else m.scaler_scale
    kmeans_centers :=
      if truthyList d.kmeans_centers then d.kmeans_centers else m.kmeans_centers }

/-! ## Pattern analysis (markov_chain.py, analyze_patterns) -/

/-- The dictionary returned by analyze_patterns. -/
structure PatternAnalysis where
  entropy : ℝ
  complexity : ℝ
  predictability : ℝ
  state_distribution : List (ℕ × ℕ)
  transition_entropy : ℝ
  n_unique_states : ℕ
  avg_state_duration : ℝ

/-- Mirrors AudioMarkovChain.analyze_patterns: there is no is_trained
guard; the features are quantized (fitting the scaler and k-means when the
model is untrained) and distribution, entropy, transition entropy,
complexity and predictability statistics are computed.  The second
component is the resulting object state. -/
noncomputable def analyze_patterns (aenv : AudioEnv) (m : AudioMarkovChain)
    (audio : List ℚ) (sr : ℕ) : PatternAnalysis × AudioMarkovChain :=
  let q := quantize_features aenv.quant m (aenv.extract_features audio sr)
  let states := q.1
  let dist := states.dedup.map fun s => (s, states.count s)
  let entropy := -(dist.map fun p =>
    ((p.2 : ℝ) / states.length) * Real.logb 2 ((p.2 : ℝ) / states.length)).sum
  let transition_entropy := -(((List.range (states.length - m.order)).map fun j =>
    let hidx := history_to_index m.n_states (histSlice states j m.order)
    if 0 < m.state_counts hidx then
      ((List.range m.n_states).map fun s =>
        if 0 < m.transition_matrix hidx s then
          (m.transition_matrix hidx s : ℝ) *
            Real.logb 2 (m.transition_matrix hidx s : ℝ)
        else 0).sum
    else 0).sum)
  let predictability := 1 - transition_entropy / states.length
  ({ entropy := entropy
     complexity := entropy / Real.logb 2 m.n_states
     predictability := max 0 predictability
     state_distribution := dist
     transition_entropy := transition_entropy
     n_unique_states := states.dedup.length
     avg_state_duration := (states.length : ℝ) / states.dedup.length }, q.2)

/-! ## Quality assessment (audio_service.py, _assess_quality) -/

/-- The per-stem score of EnhancedAudioProcessor._assess_quality: a
zero-length stem scores 0.0; otherwise the stem is trimmed to the common
length with the original and scored min(100, mean(stem^2) * 100) when its
power is positive, else 0 (the trimmed original is computed by the source
but never used; numpy's NaN mean of an empty trim is modelled as 0, which
takes the same else branch). -/
def assess_stem (original : List ℚ) (p : String × List ℚ) : String × ℚ :=
  if p.2.length = 0 then (p.1, 0)
  else
    let minLen := min original.length p.2.length
    let stem_trim := p.2.take minLen
    let stem_power := ((stem_trim.map fun x => x ^ 2).sum) / (minLen : ℚ)
    (p.1, if 0 < stem_power then min 100 (stem_power * 100) else 0)

/-- Mirrors EnhancedAudioProcessor._assess_quality: one score per stem. -/
def assess_quality (stems : List (String × List ℚ)) (original : List ℚ) :
    List (String × ℚ) :=
  stems.map (assess_stem original)

/-! ## Advanced separation (audio_service.py, separate_audio_advanced) -/

/-- Environment for separate_audio_advanced: availability flags of the
optional neural separators, the audio characteristics consulted by
_choose_best_method, and the behaviour of each separation algorithm
(Except.error models an exception inside the separator). -/
structure SepEnv where
  demucs_available : Bool
  spleeter_available : Bool
  duration : ℚ
  dynamic_range : ℚ
  run : String → Except String (List (String × List ℚ))

/-- Mirrors EnhancedAudioProcessor._choose_best_method: demucs when
available and the track is longer than 30 seconds, else spleeter when
available, else nmf for dynamic range above 0.5, else hpss. -/
def choose_best_method (env : SepEnv) : String :=
  if env.demucs_available = true ∧ env.duration > 30 then "demucs"
  else if env.spleeter_available = true then "spleeter"
  else if env.dynamic_range > 1 / 2 then "nmf"
  else "hpss"

/-- The method after auto-selection (the local variable method of
separate_audio_advanced after the auto branch). -/
def selected_method (env : SepEnv) (method : String) : String :=
  if method = "auto" then choose_best_method env else method

/-- The algorithm actually dispatched by the if/elif chain of
separate_audio_advanced: the chosen method if it is recognised and its
capability is available, else the first available of demucs, spleeter and
hpss. -/
def dispatch_method (env : SepEnv) (chosen : String) : String :=
  if chosen = "demucs" ∧ env.demucs_available = true then "demucs"
  else if chosen = "spleeter" ∧ env.spleeter_available = true then "spleeter"
  else if chosen = "nmf" then "nmf"
  else if chosen = "hpss" then "hpss"
  else if env.demucs_available = true then "demucs"
  else if env.spleeter_available = true then "spleeter"
  else "hpss"

/-- Largest absolute sample value (np.max of np.abs). -/
def maxAbs (l : List ℚ) : ℚ := (l.map fun x => |x|).foldr max 0

/-- Mirrors _post_process_stems: each stem with a positive peak is
normalized by its peak. -/
def post_process_stems (stems : List (String × List ℚ)) :
    List (String × List ℚ) :=
  stems.map fun p =>
    if 0 < maxAbs p.2 then (p.1, p.2.map fun x => x / maxAbs p.2) else p

/-- The result dictionary of separate_audio_advanced. -/
structure SepResult where
  success : Bool
  stems : List (String × List ℚ)
  method_used : Option String
  error : Option String

/-- Mirrors EnhancedAudioProcessor.separate_audio_advanced (loading,
progress reporting and the numeric pipeline are abstracted into env): the
method is auto-selected if requested, exactly one algorithm is dispatched,
and the single job-level try/except turns any exception into a
success = false result with empty stems and no method metadata. -/
def separate_audio_advanced (env : SepEnv) (method : String) : SepResult :=
  match env.run (dispatch_method env (selected_method env method)) with
  | Except.ok stems =>
      { success := true
        stems := post_process_stems stems
        method_used := some (selected_method env method)
        error := none }
  | Except.error e =>
      { success := false
        stems := []
        method_used := none
        error := some ("Error in audio separation: " ++ e) }

/-- Concrete environment for claim C7: demucs and spleeter available, a
40 second track, the demucs separator raises, the others succeed. -/
def envC7 : SepEnv :=
  { demucs_available := true
    spleeter_available := true
    duration := 40
    dynamic_range := 1
    run := fun s =>
      if s = "demucs" then Except.error "boom"
      else Except.ok [("vocals", [])] }

/-! ## Task separation entry point (audio_service.py, separate_audio) -/

/-- Environment for separate_audio: the behaviour of load_audio on the
input path and of the quality-selected separation pipeline (Except.error
models an exception; the inner pipelines' own progress emissions are part
of the abstracted numerics). -/
structure TaskEnv where
  load_audio : String → Except String (List ℚ × ℕ)
  separate : String → List ℚ → ℕ → Except String (List (String × List ℚ))

/-- The result dictionary of separate_audio (file paths and sizes are
filesystem effects and are omitted from the saved stem records, which keep
the stem type and duration; the failure dictionary of the source has no
stems key, modelled as an empty list). -/
structure TaskSepResult where
  success : Bool
  stems : List (String × ℚ)
  quality_scores : List (String × ℚ)
  algorithm_used : Option String
  error : Option String

/-- Mirrors EnhancedAudioProcessor.separate_audio together with the
progress events it emits (second component, in order).  The progress
callback is invoked with (0, Validating...) and (5, Loading...) BEFORE the
audio is loaded; validate_audio_file is never called; any exception is
caught by the job-level handler, which returns success = false with the
message.  A stems filter that is empty (None or [] in Python, both falsy)
leaves the stems unfiltered; zero-length stems are skipped when saving. -/
def separate_audio (env : TaskEnv) (input_path : String) (_output_dir : String)
    (stems_filter : List String) (quality : String) :
    TaskSepResult × List (ℕ × String) :=
  let ev0 := [(0, "Validating audio file..."), (5, "Loading audio...")]
  match env.load_audio input_path with
  | Except.error e =>
      ({ success := false, stems := [], quality_scores := [],
         algorithm_used := none, error := some e }, ev0)
  | Except.ok (y, sr) =>
      let ev1 := ev0 ++ [(15, "Starting separation...")]
      match env.separate quality y sr with
      | Except.error e =>
          ({ success := false, stems := [], quality_scores := [],
             algorithm_used := none, error := some e }, ev1)
      | Except.ok stems_data =>
          let ev2 := ev1 ++ [(85, "Assessing quality..."),
            (90, "Saving separated stems...")]
          let scores := assess_quality stems_data y
          let filtered :=
            if stems_filter.isEmpty then stems_data
            else stems_data.filter fun p => stems_filter.contains p.1
          let saved := (filtered.filter fun p => p.2.length ≠ 0).map
            fun p => (p.1, (p.2.length : ℚ) / (sr : ℚ))
          ({ success := true, stems := saved, quality_scores := scores,
             algorithm_used := some quality, error := none },
            ev2 ++ [(100, "Separation completed!")])

/-- Concrete environment for claim C8: loading the zero-length input
raises. -/
def envC8 : TaskEnv :=
  { load_audio := fun _ => Except.error "empty buffer"
    separate := fun _ _ _ => Except.ok [] }

/-! ## Theorems -/

theorem lsbVal_append (n : ℕ) (l₁ l₂ : List ℕ) :
    lsbVal n (l₁ ++ l₂) = lsbVal n l₁ + n ^ l₁.length * lsbVal n l₂ := by
  induction l₁ with
  | nil => simp [lsbVal]
  | cons x xs ih => simp [lsbVal, ih, pow_succ]; ring

theorem history_to_index_eq_lsbVal (n : ℕ) (l : List ℕ) :
    history_to_index n l = lsbVal n l.reverse := by
  induction l with
  | nil => simp [history_to_index, lsbVal]
  | cons s rest ih =>
      simp [history_to_index, ih, List.reverse_cons, lsbVal_append, lsbVal]
      ring

theorem lsbVal_lt (n : ℕ) (l : List ℕ) (hmem : ∀ x ∈ l, x < n) :
    lsbVal n l < n ^ l.length := by
  induction l with
  | nil => simp [lsbVal]
  | cons x xs ih =>
      have hx : x < n := hmem x (List.mem_cons_self x xs)
      have hxs : lsbVal n xs < n ^ xs.length :=
        ih (fun y hy => hmem y (List.mem_cons_of_mem x hy))
      simp only [lsbVal, List.length_cons]
      have hmain : x + lsbVal n xs * n < n ^ xs.length * n := by
        calc x + lsbVal n xs * n < n + lsbVal n xs * n := by omega
        _ = (lsbVal n xs + 1) * n := by ring
        _ ≤ n ^ xs.length * n := Nat.mul_le_mul_right n hxs
      rw [pow_succ]
      rw [Nat.mul_comm (lsbVal n xs) n] at hmain
      exact hmain

theorem index_to_history_rev_lsbVal (n : ℕ) (l : List ℕ)
    (hmem : ∀ x ∈ l, x < n) :
    index_to_history_rev n l.length (lsbVal n l) = l := by
  induction l with
  | nil => simp [index_to_history_rev]
  | cons x xs ih =>
      have hx : x < n := hmem x (List.mem_cons_self x xs)
      have hmod : (x + n * lsbVal n xs) % n = x := by
        rw [Nat.add_mul_mod_self_left, Nat.mod_eq_of_lt hx]
      have hdiv : (x + n * lsbVal n xs) / n = lsbVal n xs := by
        rw [Nat.add_mul_div_left _ _ (Nat.lt_of_le_of_lt (Nat.zero_le x) hx),
          Nat.div_eq_of_lt hx]
        omega
      simp only [lsbVal, List.length_cons, index_to_history_rev, hmod, hdiv]
      rw [ih (fun y hy => hmem y (List.mem_cons_of_mem x hy))]

theorem lsbVal_index_to_history_rev (n k i : ℕ) (hi : i < n ^ k) :
    lsbVal n (index_to_history_rev n k i) = i := by
  induction k generalizing i with
  | zero =>
      simp [pow_zero] at hi
      simp [index_to_history_rev, lsbVal, hi]
  | succ k ih =>
      rcases Nat.eq_zero_or_pos n with hn | hn
      · subst hn; simp [pow_succ] at hi
      · have hdiv : i / n < n ^ k := by
          rw [Nat.div_lt_iff_lt_mul hn]
          calc i < n ^ (k + 1) := hi
          _ = n ^ k * n := by rw [pow_succ]
        simp only [index_to_history_rev, lsbVal, ih _ hdiv]
        exact Nat.mod_add_div i n

theorem length_index_to_history_rev (n k i : ℕ) :
    (index_to_history_rev n k i).length = k := by
  induction k generalizing i with
  | zero => simp [index_to_history_rev]
  | succ k ih => simp [index_to_history_rev, ih]

/-- Claim C2: the history-to-index mapping is a bijective mixed-radix
encoding of k-tuples of state ids (each below n_states) into the interval
from 0 to n_states ^ k: the index is always in range, decoding inverts
encoding, and encoding inverts decoding on in-range indices. -/
theorem history_index_bijection (n k : ℕ) (hist : List ℕ)
    (hlen : hist.length = k) (hmem : ∀ x ∈ hist, x < n) :
    history_to_index n hist < n ^ k ∧
      index_to_history n k (history_to_index n hist) = hist ∧
      ∀ i < n ^ k, history_to_index n (index_to_history n k i) = i := by
  have hrevmem : ∀ x ∈ hist.reverse, x < n := by
    intro x hx; exact hmem x (List.mem_reverse.mp hx)
  have hrevlen : hist.reverse.length = k := by simp [hlen]
  refine ⟨?_, ?_, ?_⟩
  · rw [history_to_index_eq_lsbVal]
    have := lsbVal_lt n hist.reverse hrevmem
    rwa [hrevlen] at this
  · rw [index_to_history, history_to_index_eq_lsbVal, ← hrevlen,
      index_to_history_rev_lsbVal n hist.reverse hrevmem, List.reverse_reverse]
  · intro i hi
    rw [history_to_index_eq_lsbVal, index_to_history, List.reverse_reverse,
      lsbVal_index_to_history_rev n k i hi]

/-- Witness for history_index_bijection at n = 3, k = 2, hist = [1, 2]. -/
theorem history_index_bijection_witness :
    ([1, 2] : List ℕ).length = 2 ∧
      (history_to_index 3 [1, 2] < 3 ^ 2 ∧
        index_to_history 3 2 (history_to_index 3 [1, 2]) = [1, 2] ∧
        ∀ i < 3 ^ 2, history_to_index 3 (index_to_history 3 2 i) = i) :=
  ⟨by decide, history_index_bijection 3 2 [1, 2] (by decide) (by decide)⟩

theorem bump_n_states (m : AudioMarkovChain) (p : List ℕ × ℕ) :
    (bump m p).n_states = m.n_states := rfl

theorem foldl_bump_n_states (l : List (List ℕ × ℕ)) (m : AudioMarkovChain) :
    (l.foldl bump m).n_states = m.n_states := by
  induction l generalizing m with
  | nil => rfl
  | cons x xs ih => simp [List.foldl_cons, ih, bump_n_states]

theorem foldl_bump_order (l : List (List ℕ × ℕ)) (m : AudioMarkovChain) :
    (l.foldl bump m).order = m.order := by
  induction l generalizing m with
  | nil => rfl
  | cons x xs ih => simp [List.foldl_cons, ih]; rfl

theorem foldl_bump_transition (l : List (List ℕ × ℕ)) (m : AudioMarkovChain)
    (h s : ℕ) :
    (l.foldl bump m).transition_matrix h s =
      m.transition_matrix h s +
        (l.countP (fun p => history_to_index m.n_states p.1 == h && p.2 == s) : ℚ) := by
  induction l generalizing m with
  | nil => simp
  | cons x xs ih =>
      rw [List.foldl_cons, ih, List.countP_cons]
      have hn : (bump m x).n_states = m.n_states := rfl
      rw [hn]
      have hb : (bump m x).transition_matrix h s =
          m.transition_matrix h s +
            if history_to_index m.n_states x.1 == h && x.2 == s then 1 else 0 := by
        simp only [bump]
        by_cases h1 : h = history_to_index m.n_states x.1
        · by_cases h2 : s = x.2
          · simp [h1, h2]
          · simp [h1, h2, Ne.symm h2]
        · simp only [h1, if_neg (by tauto)]
          simp
          intro hh
          exact absurd hh.symm h1
      rw [hb]
      push_cast
      ring

theorem foldl_bump_state_counts (l : List (List ℕ × ℕ)) (m : AudioMarkovChain)
    (h : ℕ) :
    (l.foldl bump m).state_counts h =
      m.state_counts h +
        (l.countP (fun p => history_to_index m.n_states p.1 == h) : ℚ) := by
  induction l generalizing m with
  | nil => simp
  | cons x xs ih =>
      rw [List.foldl_cons, ih, List.countP_cons]
      have hn : (bump m x).n_states = m.n_states := rfl
      rw [hn]
      have hb : (bump m x).state_counts h =
          m.state_counts h +
            if history_to_index m.n_states x.1 == h then 1 else 0 := by
        simp only [bump]
        by_cases h1 : h = history_to_index m.n_states x.1
        · simp [h1]
        · simp [h1]
          exact fun hh => h1 hh.symm
      rw [hb]
      push_cast
      ring

theorem foldl_build_n_states (seqs : List (List ℕ)) (m : AudioMarkovChain) :
    (seqs.foldl build_transition_matrix m).n_states = m.n_states := by
  induction seqs generalizing m with
  | nil => rfl
  | cons x xs ih =>
      rw [List.foldl_cons, ih, build_transition_matrix, foldl_bump_n_states]

theorem foldl_build_order (seqs : List (List ℕ)) (m : AudioMarkovChain) :
    (seqs.foldl build_transition_matrix m).order = m.order := by
  induction seqs generalizing m with
  | nil => rfl
  | cons x xs ih =>
      rw [List.foldl_cons, ih, build_transition_matrix, foldl_bump_order]

theorem foldl_build_transition (seqs : List (List ℕ)) (m : AudioMarkovChain)
    (h s : ℕ) :
    (seqs.foldl build_transition_matrix m).transition_matrix h s =
      m.transition_matrix h s + (transCount m.n_states m.order seqs h s : ℚ) := by
  induction seqs generalizing m with
  | nil => simp [transCount, transPairs]
  | cons x xs ih =>
      rw [List.foldl_cons, ih, build_transition_matrix, foldl_bump_transition]
      simp only [foldl_bump_n_states, foldl_bump_order]
      have : transCount m.n_states m.order (x :: xs) h s =
          (transPairs m.order x).countP
              (fun p => history_to_index m.n_states p.1 == h && p.2 == s) +
            transCount m.n_states m.order xs h s := by
        simp [transCount, List.countP_append]
      rw [this]
      push_cast
      ring

theorem foldl_build_state_counts (seqs : List (List ℕ)) (m : AudioMarkovChain)
    (h : ℕ) :
    (seqs.foldl build_transition_matrix m).state_counts h =
      m.state_counts h + (histCount m.n_states m.order seqs h : ℚ) := by
  induction seqs generalizing m with
  | nil => simp [histCount, transPairs]
  | cons x xs ih =>
      rw [List.foldl_cons, ih, build_transition_matrix, foldl_bump_state_counts]
      simp only [foldl_bump_n_states, foldl_bump_order]
      have : histCount m.n_states m.order (x :: xs) h =
          (transPairs m.order x).countP
              (fun p => history_to_index m.n_states p.1 == h) +
            histCount m.n_states m.order xs h := by
        simp [histCount, List.countP_append]
      rw [this]
      push_cast
      ring

theorem snd_mem_of_mem_transPairs (k : ℕ) (seq : List ℕ) (p : List ℕ × ℕ)
    (hp : p ∈ transPairs k seq) : p.2 ∈ seq := by
  obtain ⟨j, hj, rfl⟩ := List.mem_map.mp hp
  have hj2 : j < seq.length - k := List.mem_range.mp hj
  have hjk : j + k < seq.length := by omega
  simp only
  rw [List.getD_eq_getElem seq 0 hjk]
  exact List.getElem_mem hjk

theorem countP_sum_eq (l : List (List ℕ × ℕ)) (n h : ℕ)
    (hl : ∀ p ∈ l, p.2 < n) :
    ∑ s ∈ Finset.range n,
        l.countP (fun p => history_to_index n p.1 == h && p.2 == s) =
      l.countP (fun p => history_to_index n p.1 == h) := by
  induction l with
  | nil => simp
  | cons x xs ih =>
      have hx : x.2 < n := hl x (List.mem_cons_self x xs)
      have hxs := ih (fun p hp => hl p (List.mem_cons_of_mem x hp))
      simp only [List.countP_cons]
      rw [Finset.sum_add_distrib, hxs]
      congr 1
      by_cases hh : history_to_index n x.1 = h
      · simp only [hh, beq_self_eq_true, Bool.true_and, if_pos]
        have : ∀ s : ℕ, (if (x.2 == s) = true then 1 else 0) =
            if x.2 = s then 1 else 0 := by
          intro s; by_cases hs : x.2 = s <;> simp [hs]
        rw [Finset.sum_congr rfl (fun s _ => this s)]
        rw [Finset.sum_ite_eq (Finset.range n) x.2 (fun _ => 1)]
        simp [Finset.mem_range.mpr hx]
      · have hb : (history_to_index n x.1 == h) = false := by
          simp [hh]
        simp [hb]

/-- State components untouched by _quantize_features (it only ever writes
the scaler and k-means attributes). -/
theorem quantize_features_state (env : QuantEnv) (m : AudioMarkovChain)
    (f : List (List ℚ)) :
    (quantize_features env m f).2.order = m.order ∧
      (quantize_features env m f).2.n_states = m.n_states ∧
      (quantize_features env m f).2.transition_matrix = m.transition_matrix ∧
      (quantize_features env m f).2.state_counts = m.state_counts ∧
      (quantize_features env m f).2.is_trained = m.is_trained := by
  unfold quantize_features
  by_cases h : m.is_trained <;> simp [h]

/-- State components untouched by the quantization prefix of train. -/
theorem quantize_all_state (env : QuantEnv) (m : AudioMarkovChain)
    (fl : List (List (List ℚ))) :
    (quantize_all env m fl).2.order = m.order ∧
      (quantize_all env m fl).2.n_states = m.n_states ∧
      (quantize_all env m fl).2.transition_matrix = m.transition_matrix ∧
      (quantize_all env m fl).2.state_counts = m.state_counts ∧
      (quantize_all env m fl).2.is_trained = m.is_trained := by
  induction fl generalizing m with
  | nil => exact ⟨rfl, rfl, rfl, rfl, rfl⟩
  | cons f fs ih =>
      obtain ⟨h1, h2, h3, h4, h5⟩ := ih (quantize_features env m f).2
      obtain ⟨g1, g2, g3, g4, g5⟩ := quantize_features_state env m f
      exact ⟨by rw [quantize_all]; rw [h1, g1], by rw [quantize_all]; rw [h2, g2],
        by rw [quantize_all]; rw [h3, g3], by rw [quantize_all]; rw [h4, g4],
        by rw [quantize_all]; rw [h5, g5]⟩

theorem train_states_state_counts (m : AudioMarkovChain)
    (seqs : List (List ℕ)) (h : ℕ) :
    (train_states m seqs).state_counts h =
      (seqs.foldl build_transition_matrix m).state_counts h := rfl

theorem train_states_transition (m : AudioMarkovChain)
    (seqs : List (List ℕ)) (h s : ℕ) :
    (train_states m seqs).transition_matrix h s =
      if 0 < (seqs.foldl build_transition_matrix m).state_counts h then
        (seqs.foldl build_transition_matrix m).transition_matrix h s /
          (seqs.foldl build_transition_matrix m).state_counts h
      else (seqs.foldl build_transition_matrix m).transition_matrix h s := rfl

/-- Claim C1: after a single call to train on a fresh model, every row of
the transition table whose history was observed at least once is a
probability distribution (entrywise nonnegative and summing to one, here
exactly over the rationals), and rows of never observed histories remain
identically zero. -/
theorem train_rows_distribution (env : QuantEnv) (k n : ℕ) (ft : String)
    (fl : List (List (List ℚ))) (M : AudioMarkovChain)
    (hM : M = train env (AudioMarkovChain.init k n ft) fl)
    (hmem : ∀ seq ∈ (quantize_all env (AudioMarkovChain.init k n ft) fl).1,
      ∀ s ∈ seq, s < n) (h : ℕ) :
    (0 < M.state_counts h →
        (∀ s, 0 ≤ M.transition_matrix h s) ∧
          ∑ s ∈ Finset.range n, M.transition_matrix h s = 1) ∧
      (M.state_counts h = 0 → ∀ s, M.transition_matrix h s = 0) := by
  classical
  obtain ⟨hord, hns, htm, hsc, -⟩ :=
    quantize_all_state env (AudioMarkovChain.init k n ft) fl
  have hMsc : ∀ h0, M.state_counts h0 =
      (histCount n k (quantize_all env (AudioMarkovChain.init k n ft) fl).1 h0 : ℚ) := by
    intro h0
    rw [hM]
    show (train_states (quantize_all env (AudioMarkovChain.init k n ft) fl).2
        (quantize_all env (AudioMarkovChain.init k n ft) fl).1).state_counts h0 = _
    rw [train_states_state_counts, foldl_build_state_counts, hsc, hns, hord]
    simp [AudioMarkovChain.init]
  have hMtm : ∀ h0 s, M.transition_matrix h0 s =
      if 0 < (histCount n k
            (quantize_all env (AudioMarkovChain.init k n ft) fl).1 h0 : ℚ) then
        (transCount n k (quantize_all env (AudioMarkovChain.init k n ft) fl).1 h0 s : ℚ) /
          (histCount n k (quantize_all env (AudioMarkovChain.init k n ft) fl).1 h0 : ℚ)
      else (transCount n k
          (quantize_all env (AudioMarkovChain.init k n ft) fl).1 h0 s : ℚ) := by
    intro h0 s
    rw [hM]
    show (train_states (quantize_all env (AudioMarkovChain.init k n ft) fl).2
        (quantize_all env (AudioMarkovChain.init k n ft) fl).1).transition_matrix h0 s = _
    rw [train_states_transition, foldl_build_state_counts,
      foldl_build_transition, hsc, hns, hord, htm]
    simp [AudioMarkovChain.init]
  have hbound : ∀ p ∈ (((quantize_all env (AudioMarkovChain.init k n ft) fl).1.map
      (transPairs k)).flatten), p.2 < n := by
    intro p hp
    obtain ⟨l, hl, hpl⟩ := List.mem_flatten.mp hp
    obtain ⟨seq, hseq, rfl⟩ := List.mem_map.mp hl
    exact hmem seq hseq p.2 (snd_mem_of_mem_transPairs k seq p hpl)
  constructor
  · intro hpos
    rw [hMsc] at hpos
    constructor
    · intro s
      rw [hMtm, if_pos hpos]
      exact div_nonneg (Nat.cast_nonneg _) (Nat.cast_nonneg _)
    · have hsum : ∑ s ∈ Finset.range n,
          transCount n k (quantize_all env (AudioMarkovChain.init k n ft) fl).1 h s =
            histCount n k (quantize_all env (AudioMarkovChain.init k n ft) fl).1 h :=
        countP_sum_eq _ n h hbound
      have hterm : ∀ s ∈ Finset.range n, M.transition_matrix h s =
          (transCount n k (quantize_all env (AudioMarkovChain.init k n ft) fl).1 h s : ℚ) /
            (histCount n k (quantize_all env (AudioMarkovChain.init k n ft) fl).1 h : ℚ) := by
        intro s _
        rw [hMtm, if_pos hpos]
      rw [Finset.sum_congr rfl hterm, ← Finset.sum_div]
      rw [show ∑ s ∈ Finset.range n,
          (transCount n k (quantize_all env (AudioMarkovChain.init k n ft) fl).1 h s : ℚ) =
            ((∑ s ∈ Finset.range n, transCount n k
              (quantize_all env (AudioMarkovChain.init k n ft) fl).1 h s : ℕ) : ℚ) by
          push_cast; rfl]
      rw [hsum]
      exact div_self (ne_of_gt hpos)
  · intro hzero s
    rw [hMsc] at hzero
    have hz : histCount n k (quantize_all env (AudioMarkovChain.init k n ft) fl).1 h = 0 := by
      exact_mod_cast hzero
    have hle : transCount n k (quantize_all env (AudioMarkovChain.init k n ft) fl).1 h s ≤
        histCount n k (quantize_all env (AudioMarkovChain.init k n ft) fl).1 h := by
      unfold transCount histCount
      refine List.countP_mono_left fun p _ hp => ?_
      exact (Bool.and_elim_left hp)
    have ht : transCount n k (quantize_all env (AudioMarkovChain.init k n ft) fl).1 h s = 0 := by
      omega
    rw [hMtm, hz, ht]
    simp

/-- Witness for train_rows_distribution: one file of three frames, order 1,
two states, checked at history index 0. -/
theorem train_rows_distribution_witness :
    (∀ seq ∈ (quantize_all envZero (AudioMarkovChain.init 1 2 "mfcc")
        [[[1], [2], [3]]]).1, ∀ s ∈ seq, s < 2) ∧
      ((0 < (train envZero (AudioMarkovChain.init 1 2 "mfcc")
            [[[1], [2], [3]]]).state_counts 0 →
          (∀ s, 0 ≤ (train envZero (AudioMarkovChain.init 1 2 "mfcc")
            [[[1], [2], [3]]]).transition_matrix 0 s) ∧
            ∑ s ∈ Finset.range 2, (train envZero (AudioMarkovChain.init 1 2 "mfcc")
              [[[1], [2], [3]]]).transition_matrix 0 s = 1) ∧
        ((train envZero (AudioMarkovChain.init 1 2 "mfcc")
            [[[1], [2], [3]]]).state_counts 0 = 0 →
          ∀ s, (train envZero (AudioMarkovChain.init 1 2 "mfcc")
            [[[1], [2], [3]]]).transition_matrix 0 s = 0)) :=
  ⟨by decide,
    train_rows_distribution envZero 1 2 "mfcc" [[[1], [2], [3]]] _ rfl
      (by decide) 0⟩

theorem train_states_order (m : AudioMarkovChain) (seqs : List (List ℕ)) :
    (train_states m seqs).order = m.order := foldl_build_order seqs m

theorem train_states_n_states (m : AudioMarkovChain) (seqs : List (List ℕ)) :
    (train_states m seqs).n_states = m.n_states := foldl_build_n_states seqs m

/-- Claim C3, counterexample: on the model trained from the quantized
sequence [0, 1, 0, 2] (order 1, 3 states), scoring the quantized sequence
[0, 1] does not yield the sum of log((count + ε)/(rowTotal + ε·n)) the
claim states, because predict_probability puts the stored normalized row
entry (1/2), not the raw count (1), in the numerator. -/
theorem predict_raw_count_counterexample :
    score_states mC3 [0, 1] ≠ spec_score_states 3 1 [[0, 1, 0, 2]] [0, 1] := by
  have hord : mC3.order = 1 := by decide
  have hns : mC3.n_states = 3 := by decide
  have htc : transCount 3 1 [[0, 1, 0, 2]] 0 1 = 1 := by decide
  have hhc : histCount 3 1 [[0, 1, 0, 2]] 0 = 2 := by decide
  have ht01 : mC3.transition_matrix 0 1 = 1 / 2 := by
    show (train_states (AudioMarkovChain.init 1 3 "mfcc")
        [[0, 1, 0, 2]]).transition_matrix 0 1 = 1 / 2
    rw [train_states_transition, foldl_build_transition, foldl_build_state_counts]
    simp only [AudioMarkovChain.init, zero_add]
    rw [htc, hhc]
    norm_num
  have hsc0 : mC3.state_counts 0 = 2 := by
    show (train_states (AudioMarkovChain.init 1 3 "mfcc")
        [[0, 1, 0, 2]]).state_counts 0 = 2
    rw [train_states_state_counts, foldl_build_state_counts]
    simp only [AudioMarkovChain.init, zero_add]
    rw [hhc]
    norm_num
  have eidx : history_to_index 3 (histSlice [0, 1] 0 1) = 0 := by decide
  have enext : ([0, 1] : List ℕ).getD (0 + 1) 0 = 1 := by decide
  have h1 : predict_term mC3 [0, 1] 0 =
      (1 / 2 + smoothing) / (2 + smoothing * 3) := by
    simp only [predict_term, hord, hns, eidx, enext, ht01, hsc0]
    norm_num
  have h2 : spec_predict_term 3 1 [[0, 1, 0, 2]] [0, 1] 0 =
      (1 + smoothing) / (2 + smoothing * 3) := by
    simp only [spec_predict_term, eidx, enext, htc, hhc]
    norm_num
  have hs1 : score_states mC3 [0, 1] =
      Real.log ((predict_term mC3 [0, 1] 0 : ℚ) : ℝ) := by
    unfold score_states
    rw [hord]
    norm_num [List.range_succ, List.range_zero]
  have hs2 : spec_score_states 3 1 [[0, 1, 0, 2]] [0, 1] =
      Real.log ((spec_predict_term 3 1 [[0, 1, 0, 2]] [0, 1] 0 : ℚ) : ℝ) := by
    unfold spec_score_states
    norm_num [List.range_succ, List.range_zero]
  rw [hs1, hs2, h1, h2]
  have hqpos : (0 : ℚ) < (1 / 2 + smoothing) / (2 + smoothing * 3) := by
    norm_num [smoothing]
  have hqlt : ((1 / 2 + smoothing) / (2 + smoothing * 3) : ℚ) <
      (1 + smoothing) / (2 + smoothing * 3) := by
    norm_num [smoothing]
  have hlt : Real.log (((1 / 2 + smoothing) / (2 + smoothing * 3) : ℚ) : ℝ) <
      Real.log (((1 + smoothing) / (2 + smoothing * 3) : ℚ) : ℝ) := by
    apply Real.log_lt_log
    · exact_mod_cast hqpos
    · exact_mod_cast hqlt
  exact ne_of_lt hlt

/-- Claim C3 (amended): for a model trained on a fresh instance, the score
of a quantized sequence with fewer than order + 1 frames is exactly 0, and
every smoothed quotient (stored normalized row entry + ε over row total
+ ε·n) is strictly positive, so every summand of the returned log sum is
the logarithm of a positive rational, never the logarithm of zero, even
for histories never seen in training. -/
theorem predict_score_properties (k n : ℕ) (ft : String) (hn : 0 < n)
    (seqs : List (List ℕ)) (M : AudioMarkovChain)
    (hM : M = train_states (AudioMarkovChain.init k n ft) seqs)
    (states : List ℕ) :
    (states.length < k + 1 → score_states M states = 0) ∧
      ∀ j, 0 < predict_term M states j := by
  have hord : M.order = k := by
    rw [hM, train_states_order]; rfl
  have hns : M.n_states = n := by
    rw [hM, train_states_n_states]; rfl
  have htm_nonneg : ∀ h s, 0 ≤ M.transition_matrix h s := by
    intro h s
    rw [hM, train_states_transition, foldl_build_transition,
      foldl_build_state_counts]
    simp only [AudioMarkovChain.init, zero_add]
    split
    · exact div_nonneg (Nat.cast_nonneg _) (Nat.cast_nonneg _)
    · exact Nat.cast_nonneg _
  have hsc_nonneg : ∀ h, 0 ≤ M.state_counts h := by
    intro h
    rw [hM, train_states_state_counts, foldl_build_state_counts]
    simp only [AudioMarkovChain.init, zero_add]
    exact Nat.cast_nonneg _
  constructor
  · intro hlen
    have hz : states.length - M.order = 0 := by omega
    simp [score_states, hz]
  · intro j
    have hsm : (0 : ℚ) < smoothing := by norm_num [smoothing]
    apply div_pos
    · have := htm_nonneg
        (history_to_index M.n_states (histSlice states j M.order))
        (states.getD (j + M.order) 0)
      linarith
    · have h1 := hsc_nonneg (history_to_index M.n_states (histSlice states j M.order))
      have h2 : (0 : ℚ) < smoothing * M.n_states := by
        apply mul_pos hsm
        rw [hns]
        exact_mod_cast hn
      linarith

/-- Witness for predict_score_properties at the concrete trained model
mC3 and the one-frame query sequence [0]. -/
theorem predict_score_properties_witness :
    0 < 3 ∧
      mC3 = train_states (AudioMarkovChain.init 1 3 "mfcc") [[0, 1, 0, 2]] ∧
      ((([0] : List ℕ).length < 1 + 1 → score_states mC3 [0] = 0) ∧
        ∀ j, 0 < predict_term mC3 [0] j) :=
  ⟨by decide, rfl,
    predict_score_properties 1 3 "mfcc" (by decide) [[0, 1, 0, 2]] mC3 rfl [0]⟩

theorem pad_or_truncate_length (l : List ℚ) (T : ℕ) :
    (pad_or_truncate l T).length = T := by
  unfold pad_or_truncate
  split
  · rename_i h
    simp only [List.length_append, List.length_replicate]
    omega
  · split
    · rename_i h1 h2
      simp only [List.length_take]
      omega
    · rename_i h1 h2
      omega

theorem medfilt5_length (l : List ℚ) : (medfilt5 l).length = l.length := by
  simp [medfilt5]

/-- Claim C4: for every trained model, input and threshold, the mask
returned by generate_mask has exactly the shape of the magnitude
spectrogram of the input: one row per frequency bin, each row as long as
the spectrogram has time frames, with the frame-count mismatch corrected
by mean padding or truncation; a mismatched shape is never returned. -/
theorem generate_mask_shape (aenv : AudioEnv) (m : AudioMarkovChain)
    (audio : List ℚ) (sr : ℕ) (threshold : ℚ)
    (htr : m.is_trained = true) :
    ∃ mask, (generate_mask aenv m audio sr threshold).1 = Except.ok mask ∧
      mask.length = (aenv.stft_magnitude audio).length ∧
      ∀ row ∈ mask, row.length =
        ((aenv.stft_magnitude audio).getD 0 []).length := by
  unfold generate_mask
  simp only [htr, if_true]
  refine ⟨_, rfl, List.length_replicate _ _, ?_⟩
  intro row hrow
  rw [List.eq_of_mem_replicate hrow]
  rw [medfilt5_length, List.length_map, pad_or_truncate_length]

/-- Witness for generate_mask_shape at the concrete trained model mW and
the 3 by 4 spectrogram environment aenvW. -/
theorem generate_mask_shape_witness :
    mW.is_trained = true ∧
      ∃ mask, (generate_mask aenvW mW [0] 22050 (1 / 2)).1 = Except.ok mask ∧
        mask.length = (aenvW.stft_magnitude [0]).length ∧
        ∀ row ∈ mask, row.length =
          ((aenvW.stft_magnitude [0]).getD 0 []).length :=
  ⟨rfl, generate_mask_shape aenvW mW [0] 22050 (1 / 2) rfl⟩

/-- Claim C6: querying an untrained model fails with the documented
not-trained guard for every input and leaves the model state unchanged:
predict_probability and generate_mask both return the ValueError the
guard raises (the realization of the spec-level NotTrainedError) together
with the unmodified model. -/
theorem untrained_query_raises (aenv : AudioEnv) (m : AudioMarkovChain)
    (hunt : m.is_trained = false) (audio : List ℚ) (sr : ℕ) (threshold : ℚ) :
    (predict_probability aenv m audio sr).1 =
        Except.error (PyError.valueError "Model must be trained before prediction") ∧
      (predict_probability aenv m audio sr).2 = m ∧
      (generate_mask aenv m audio sr threshold).1 =
        Except.error (PyError.valueError "Model must be trained before mask generation") ∧
      (generate_mask aenv m audio sr threshold).2 = m := by
  unfold predict_probability generate_mask
  simp [hunt]

/-- Witness for untrained_query_raises at a freshly initialized model with
the default constructor arguments (order 2, 16 states). -/
theorem untrained_query_raises_witness :
    (AudioMarkovChain.init 2 16 "mfcc").is_trained = false ∧
      ((predict_probability aenvW (AudioMarkovChain.init 2 16 "mfcc") [0] 22050).1 =
          Except.error (PyError.valueError "Model must be trained before prediction") ∧
        (predict_probability aenvW (AudioMarkovChain.init 2 16 "mfcc") [0] 22050).2 =
          AudioMarkovChain.init 2 16 "mfcc" ∧
        (generate_mask aenvW (AudioMarkovChain.init 2 16 "mfcc") [0] 22050 (1 / 2)).1 =
          Except.error (PyError.valueError "Model must be trained before mask generation") ∧
        (generate_mask aenvW (AudioMarkovChain.init 2 16 "mfcc") [0] 22050 (1 / 2)).2 =
          AudioMarkovChain.init 2 16 "mfcc") :=
  ⟨rfl, untrained_query_raises aenvW (AudioMarkovChain.init 2 16 "mfcc") rfl [0] 22050 (1 / 2)⟩

theorem history_to_index_lt (n : ℕ) (l : List ℕ) (hmem : ∀ x ∈ l, x < n) :
    history_to_index n l < n ^ l.length := by
  rw [history_to_index_eq_lsbVal]
  have := lsbVal_lt n l.reverse (fun x hx => hmem x (List.mem_reverse.mp hx))
  simpa using this

theorem getD_map_range {α : Type} (N i : ℕ) (f : ℕ → α) (d : α)
    (hi : i < N) : ((List.range N).map f).getD i d = f i := by
  rw [List.getD_eq_getElem _ _ (by simpa using hi)]
  simp

theorem load_save_transition (m : AudioMarkovChain) (k2 n2 : ℕ) (ft2 : String)
    (h s : ℕ) (hh : h < m.n_states ^ m.order) (hs : s < m.n_states) :
    (load_model (AudioMarkovChain.init k2 n2 ft2)
        (save_model m)).transition_matrix h s = m.transition_matrix h s := by
  simp only [load_model, save_model]
  rw [getD_map_range _ _ _ _ hh, getD_map_range _ _ _ _ hs]

theorem load_save_state_counts (m : AudioMarkovChain) (k2 n2 : ℕ) (ft2 : String)
    (h : ℕ) (hh : h < m.n_states ^ m.order) :
    (load_model (AudioMarkovChain.init k2 n2 ft2)
        (save_model m)).state_counts h = m.state_counts h := by
  simp only [load_model, save_model]
  rw [getD_map_range _ _ _ _ hh]

/-- Claim C5: model persistence round-trips: saving a trained model and
loading into a fresh instance reproduces the order, state count, feature
type, trained flag, transition probabilities and state counts over the
array extents, and the reloaded model scores every valid quantized state
sequence identically to the original. -/
theorem save_load_roundtrip (m : AudioMarkovChain) (htr : m.is_trained = true)
    (k2 n2 : ℕ) (ft2 : String) (M : AudioMarkovChain)
    (hM : M = load_model (AudioMarkovChain.init k2 n2 ft2) (save_model m)) :
    M.order = m.order ∧ M.n_states = m.n_states ∧
      M.feature_type = m.feature_type ∧ M.is_trained = true ∧
      M.training_samples = m.training_samples ∧
      (∀ h < m.n_states ^ m.order, ∀ s < m.n_states,
        M.transition_matrix h s = m.transition_matrix h s) ∧
      (∀ h < m.n_states ^ m.order, M.state_counts h = m.state_counts h) ∧
      ∀ states : List ℕ, (∀ x ∈ states, x < m.n_states) →
        score_states M states = score_states m states := by
  have hMord : M.order = m.order := by rw [hM]; rfl
  have hMns : M.n_states = m.n_states := by rw [hM]; rfl
  refine ⟨hMord, hMns, by rw [hM]; rfl, by rw [hM]; exact htr, by rw [hM]; rfl,
    ?_, ?_, ?_⟩
  · intro h hh s hs
    rw [hM]
    exact load_save_transition m k2 n2 ft2 h s hh hs
  · intro h hh
    rw [hM]
    exact load_save_state_counts m k2 n2 ft2 h hh
  · intro states hstates
    have hpt : ∀ j < states.length - m.order,
        predict_term M states j = predict_term m states j := by
      intro j hj
      have hslicelen : (histSlice states j m.order).length = m.order := by
        simp only [histSlice, List.length_take, List.length_drop]
        omega
      have hslicemem : ∀ x ∈ histSlice states j m.order, x < m.n_states := by
        intro x hx
        exact hstates x (List.mem_of_mem_drop (List.mem_of_mem_take hx))
      have hidx : history_to_index m.n_states (histSlice states j m.order) <
          m.n_states ^ m.order := by
        have := history_to_index_lt m.n_states _ hslicemem
        rwa [hslicelen] at this
      have hjk : j + m.order < states.length := by omega
      have hnext : states.getD (j + m.order) 0 < m.n_states := by
        rw [List.getD_eq_getElem states 0 hjk]
        exact hstates _ (List.getElem_mem hjk)
      unfold predict_term
      rw [hMord, hMns, hM, load_save_transition m k2 n2 ft2 _ _ hidx hnext,
        load_save_state_counts m k2 n2 ft2 _ hidx]
    unfold score_states
    rw [hMord]
    refine congrArg List.sum (List.map_congr_left ?_)
    intro j hj
    rw [hpt j (List.mem_range.mp hj)]

/-- Witness for save_load_roundtrip: the trained model mW saved and
reloaded into a fresh instance with different constructor arguments. -/
theorem save_load_roundtrip_witness :
    mW.is_trained = true ∧
      (load_model (AudioMarkovChain.init 2 16 "spectral") (save_model mW)).order =
        mW.order ∧
      ∀ states : List ℕ, (∀ x ∈ states, x < mW.n_states) →
        score_states (load_model (AudioMarkovChain.init 2 16 "spectral")
          (save_model mW)) states = score_states mW states :=
  ⟨rfl,
    (save_load_roundtrip mW rfl 2 16 "spectral" _ rfl).1,
    (save_load_roundtrip mW rfl 2 16 "spectral" _ rfl).2.2.2.2.2.2.2⟩

/-- Claim C10: analyze_patterns has no is_trained guard: on an untrained
model it does not fail; its quantization step fits the scaler and the
clustering model on the query input itself and stores the fitted
parameters, mutating the model state, while predict_probability and
generate_mask on the same untrained model fail on their guard. -/
theorem analyze_patterns_mutates_untrained (aenv : AudioEnv)
    (m : AudioMarkovChain) (hunt : m.is_trained = false)
    (hscaler : m.scaler_mean = none) (audio : List ℚ) (sr : ℕ) :
    ((analyze_patterns aenv m audio sr).2.scaler_mean =
        some (aenv.quant.fit (aenv.extract_features audio sr)).1.scaler_mean ∧
      (analyze_patterns aenv m audio sr).2.scaler_scale =
        some (aenv.quant.fit (aenv.extract_features audio sr)).1.scaler_scale ∧
      (analyze_patterns aenv m audio sr).2.kmeans_centers =
        some (aenv.quant.fit (aenv.extract_features audio sr)).1.kmeans_centers) ∧
      (analyze_patterns aenv m audio sr).2 ≠ m ∧
      (predict_probability aenv m audio sr).1 =
        Except.error (PyError.valueError "Model must be trained before prediction") ∧
      (generate_mask aenv m audio sr (1 / 2)).1 =
        Except.error (PyError.valueError "Model must be trained before mask generation") := by
  have hfields :
      (analyze_patterns aenv m audio sr).2.scaler_mean =
          some (aenv.quant.fit (aenv.extract_features audio sr)).1.scaler_mean ∧
        (analyze_patterns aenv m audio sr).2.scaler_scale =
          some (aenv.quant.fit (aenv.extract_features audio sr)).1.scaler_scale ∧
        (analyze_patterns aenv m audio sr).2.kmeans_centers =
          some (aenv.quant.fit (aenv.extract_features audio sr)).1.kmeans_centers := by
    unfold analyze_patterns quantize_features
    simp [hunt]
  refine ⟨hfields, ?_, ?_, ?_⟩
  · intro heq
    have := hfields.1
    rw [heq, hscaler] at this
    exact Option.noConfusion this
  · unfold predict_probability
    simp [hunt]
  · unfold generate_mask
    simp [hunt]

/-- Witness for analyze_patterns_mutates_untrained at a fresh default
model (order 2, 16 states) and the concrete environment aenvW. -/
theorem analyze_patterns_mutates_untrained_witness :
    (AudioMarkovChain.init 2 16 "mfcc").is_trained = false ∧
      (AudioMarkovChain.init 2 16 "mfcc").scaler_mean = none ∧
      ((analyze_patterns aenvW (AudioMarkovChain.init 2 16 "mfcc") [0] 22050).2 ≠
        AudioMarkovChain.init 2 16 "mfcc") :=
  ⟨rfl, rfl,
    (analyze_patterns_mutates_untrained aenvW (AudioMarkovChain.init 2 16 "mfcc")
      rfl rfl [0] 22050).2.1⟩

theorem assess_stem_bounds (original : List ℚ) (p : String × List ℚ) :
    0 ≤ (assess_stem original p).2 ∧ (assess_stem original p).2 ≤ 100 := by
  unfold assess_stem
  by_cases hz : p.2.length = 0
  · simp [hz]
  · simp only [hz, if_neg hz]
    set pw := ((p.2.take (min original.length p.2.length)).map
      fun x => x ^ 2).sum / ((min original.length p.2.length : ℕ) : ℚ) with hpw
    by_cases hpos : 0 < pw
    · simp only [if_pos hpos]
      exact ⟨le_min (by norm_num) (by positivity), min_le_left _ _⟩
    · simp [if_neg hpos]

/-- Claim C9: every per-stem quality score lies in the closed interval
from 0 to 100, for every stems dictionary and original signal, and a
zero-length stem receives exactly 0. -/
theorem assess_quality_bounds (stems : List (String × List ℚ))
    (original : List ℚ) :
    (∀ q ∈ assess_quality stems original, 0 ≤ q.2 ∧ q.2 ≤ 100) ∧
      ∀ p ∈ stems, p.2 = [] →
        (p.1, (0 : ℚ)) ∈ assess_quality stems original := by
  constructor
  · intro q hq
    obtain ⟨p, hp, rfl⟩ := List.mem_map.mp hq
    exact assess_stem_bounds original p
  · intro p hp hnil
    have himg : assess_stem original p = (p.1, (0 : ℚ)) := by
      simp [assess_stem, hnil]
    rw [← himg]
    exact List.mem_map_of_mem _ hp

/-- Witness for assess_quality_bounds: a corpus with one zero-length stem. -/
theorem assess_quality_bounds_witness :
    ("drums", ([] : List ℚ)) ∈ [("vocals", [1]), ("drums", ([] : List ℚ))] ∧
      ("drums", (0 : ℚ)) ∈
        assess_quality [("vocals", [1]), ("drums", [])] [1] :=
  ⟨by simp,
    (assess_quality_bounds [("vocals", [1]), ("drums", [])] [1]).2
      ("drums", []) (by simp) rfl⟩

/-- Claim C7, counterexample: with demucs top priority (available, track
longer than 30 s) and its separator raising, the job does NOT fall back to
spleeter: it returns success = false with no method recorded, refuting
success = true with metadata.method_used equal to the next-priority
method. -/
theorem fallback_counterexample :
    (separate_audio_advanced envC7 "auto").success = false ∧
      (separate_audio_advanced envC7 "auto").method_used = none := by
  have hsel : selected_method envC7 "auto" = "demucs" := by
    simp only [selected_method, choose_best_method, envC7]
    norm_num
  have hdisp : dispatch_method envC7 (selected_method envC7 "auto") = "demucs" := by
    rw [hsel]
    simp [dispatch_method, envC7]
  have hrun : envC7.run (dispatch_method envC7 (selected_method envC7 "auto")) =
      Except.error "boom" := by
    rw [hdisp]
    rfl
  unfold separate_audio_advanced
  rw [hrun]
  exact ⟨rfl, rfl⟩

/-- Claim C7 (amended): there is no per-algorithm fallback: when the one
dispatched algorithm raises, the exception reaches only the job-level
handler and the job returns success = false with empty stems and no
method_used; success = true with method_used = the selected method occurs
exactly when that single dispatched algorithm succeeds (availability-based
substitution happens before running, for unavailable or unrecognised
method names, never after a failure). -/
theorem separate_advanced_no_fallback (env : SepEnv) (method : String) :
    (∀ e, env.run (dispatch_method env (selected_method env method)) =
        Except.error e →
      (separate_audio_advanced env method).success = false ∧
        (separate_audio_advanced env method).method_used = none ∧
        (separate_audio_advanced env method).stems = []) ∧
      ∀ st, env.run (dispatch_method env (selected_method env method)) =
          Except.ok st →
        (separate_audio_advanced env method).success = true ∧
          (separate_audio_advanced env method).method_used =
            some (selected_method env method) := by
  constructor
  · intro e he
    unfold separate_audio_advanced
    rw [he]
    exact ⟨rfl, rfl, rfl⟩
  · intro st hst
    unfold separate_audio_advanced
    rw [hst]
    exact ⟨rfl, rfl⟩

/-- Witness for separate_advanced_no_fallback at the concrete failing
environment envC7. -/
theorem separate_advanced_no_fallback_witness :
    envC7.run (dispatch_method envC7 (selected_method envC7 "auto")) =
        Except.error "boom" ∧
      (separate_audio_advanced envC7 "auto").success = false ∧
        (separate_audio_advanced envC7 "auto").method_used = none ∧
        (separate_audio_advanced envC7 "auto").stems = [] := by
  have hsel : selected_method envC7 "auto" = "demucs" := by
    simp only [selected_method, choose_best_method, envC7]
    norm_num
  have hrun : envC7.run (dispatch_method envC7 (selected_method envC7 "auto")) =
      Except.error "boom" := by
    rw [hsel]
    simp [dispatch_method, envC7]
  exact ⟨hrun, (separate_advanced_no_fallback envC7 "auto").1 "boom" hrun⟩

/-- Claim C8, counterexample: on a zero-length buffer whose load fails,
progress events HAVE already been emitted before the failure (the event
list is not empty) and no ValidationError propagates: the job returns a
success = false result instead, so the validation failure does not
precede the first progress emission. -/
theorem validation_progress_counterexample :
    (separate_audio envC8 "empty.wav" "out" [] "balanced").2 ≠ [] ∧
      (separate_audio envC8 "empty.wav" "out" [] "balanced").1.success = false := by
  constructor
  · intro h
    have : (separate_audio envC8 "empty.wav" "out" [] "balanced").2 =
        [(0, "Validating audio file..."), (5, "Loading audio...")] := rfl
    rw [this] at h
    exact List.noConfusion h
  · rfl

/-- Claim C8 (amended): on an input whose load fails (such as a
zero-length buffer), separate_audio emits the progress events
(0, Validating...) and (5, Loading...) before the failure, catches the
exception at job level and returns success = false carrying the error
message; no ValidationError is raised, and validation does not precede
the first progress emission (validate_audio_file is never called from
separate_audio). -/
theorem separate_audio_load_failure (env : TaskEnv) (input_path : String)
    (output_dir : String) (stems_filter : List String) (quality : String)
    (e : String) (hload : env.load_audio input_path = Except.error e) :
    (separate_audio env input_path output_dir stems_filter quality).1.success =
        false ∧
      (separate_audio env input_path output_dir stems_filter quality).1.error =
        some e ∧
      (separate_audio env input_path output_dir stems_filter quality).2 =
        [(0, "Validating audio file..."), (5, "Loading audio...")] := by
  unfold separate_audio
  rw [hload]
  exact ⟨rfl, rfl, rfl⟩

/-- Witness for separate_audio_load_failure at the concrete failing
loader envC8. -/
theorem separate_audio_load_failure_witness :
    envC8.load_audio "empty.wav" = Except.error "empty buffer" ∧
      ((separate_audio envC8 "empty.wav" "out" [] "balanced").1.success = false ∧
        (separate_audio envC8 "empty.wav" "out" [] "balanced").1.error =
          some "empty buffer" ∧
        (separate_audio envC8 "empty.wav" "out" [] "balanced").2 =
          [(0, "Validating audio file..."), (5, "Loading audio...")]) :=
  ⟨rfl, separate_audio_load_failure envC8 "empty.wav" "out" [] "balanced"
    "empty buffer" rfl⟩

end NoisyNeuron
